import Mathlib

/-!
A shallow embedding of the Neotron OS console and configuration layer
(`src/lib.rs`), together with theorems settling the specification's claims.

Machine integers: the `VgaConsole` fields (`width`, `height`, `row`, `col`)
are `u8` in the source, so arithmetic on them wraps modulo 256 (`wAdd`,
`wSub`, `wMul` below model release-build wrapping semantics).  The
framebuffer is modelled as a total byte map `Nat → Nat`, indexed by byte
offset from the base address `addr`, so that writes landing past the
visible grid stay observable instead of silently disappearing.
-/

/-- Wrapping `u8` addition: models `a + b` on Rust `u8` (release build). -/
def wAdd (a b : Nat) : Nat := (a + b) % 256

/-- Wrapping `u8` subtraction: models `a - b` on Rust `u8` (release build). -/
def wSub (a b : Nat) : Nat := (a + 256 - b % 256) % 256

/-- Wrapping `u8` multiplication: models `a * b` on Rust `u8` (release build). -/
def wMul (a b : Nat) : Nat := (a * b) % 256

/-- State of `struct VgaConsole` (src/lib.rs lines 63-70).  The raw pointer
`addr` is modelled as offset 0 of the byte map `mem`. -/
structure VgaConsole where
  width : Nat
  height : Nat
  row : Nat
  col : Nat
  mem : Nat → Nat

/-- White on Black: `const DEFAULT_ATTR: u8 = (15 << 3) | 0` (line 74). -/
def VgaConsole.DEFAULT_ATTR : Nat := (15 <<< 3) ||| 0

/-- Models `VgaConsole::write` (lines 104-111): volatile write of the glyph
byte at offset `(row * width + col) * 2`, and of the attribute byte at the
following offset when one is supplied.  The offset arithmetic converts to
`isize` before multiplying in the source, so it does not wrap. -/
def VgaConsole.write (s : VgaConsole) (glyph : Nat) (attr : Option Nat) : VgaConsole :=
  let offset := (s.row * s.width + s.col) * 2
  let m1 : Nat → Nat := fun o => if o = offset then glyph else s.mem o
  match attr with
  | some a => { s with mem := fun o => if o = offset + 1 then a else m1 o }
  | none => { s with mem := m1 }

/-- Models `VgaConsole::scroll_page` (lines 113-127).  `core::ptr::copy` is
`memmove`: destination bytes `[0, count)` receive the old bytes at
`[src, src + count)`.  The source offset comes from `self.width * 2`
computed in `u8`, hence `wMul`; the byte count converts to `usize` first
(`usize::from(self.width) * usize::from(self.height - 1) * 2`), but its
`self.height - 1` is still a `u8` subtraction, hence `wSub`.  The
"blank bottom line" loop then writes a blank cell at `(self.row, col)` for
each `col`, using whatever `self.row` currently is, and finally resets
`col` to 0.  `scrollBlankStep` is the body of that loop
(`self.col = col; self.write(b' ', Some(Self::DEFAULT_ATTR))`). -/
def VgaConsole.scrollBlankStep (st : VgaConsole) (c : Nat) : VgaConsole :=
  VgaConsole.write { st with col := c } 32 (some VgaConsole.DEFAULT_ATTR)

/-- Models `VgaConsole::scroll_page` (lines 113-127); see `scrollBlankStep`
for the loop body of the blanking pass. -/
def VgaConsole.scroll_page (s : VgaConsole) : VgaConsole :=
  let src := wMul s.width 2
  let count := s.width * (wSub s.height 1) * 2
  let s1 : VgaConsole := { s with mem := fun o => if o < count then s.mem (src + o) else s.mem o }
  let s2 := (List.range s1.width).foldl VgaConsole.scrollBlankStep s1
  { s2 with col := 0 }

/-- Models `VgaConsole::move_char_down` (lines 84-90): increment `row`; on
reaching `height`, scroll and clamp `row` to `height - 1`. -/
def VgaConsole.move_char_down (s : VgaConsole) : VgaConsole :=
  let s1 : VgaConsole := { s with row := wAdd s.row 1 }
  if s1.row = s1.height then
    let s2 := s1.scroll_page
    { s2 with row := wSub s2.height 1 }
  else s1

/-- Models `VgaConsole::move_char_right` (lines 76-82): increment `col`; on
reaching `width`, reset `col` to 0 and advance the row. -/
def VgaConsole.move_char_right (s : VgaConsole) : VgaConsole :=
  let s1 : VgaConsole := { s with col := wAdd s.col 1 }
  if s1.col = s1.width then VgaConsole.move_char_down { s1 with col := 0 } else s1

/-- Body of the inner loop of `VgaConsole::clear`
(`self.row = row; self.col = col; self.write(b' ', Some(Self::DEFAULT_ATTR))`). -/
def VgaConsole.blankCell (r : Nat) (st : VgaConsole) (c : Nat) : VgaConsole :=
  VgaConsole.write { st with row := r, col := c } 32 (some VgaConsole.DEFAULT_ATTR)

/-- Inner loop of `VgaConsole::clear`: `for col in 0..self.width`. -/
def VgaConsole.clearRow (st : VgaConsole) (r : Nat) : VgaConsole :=
  (List.range st.width).foldl (VgaConsole.blankCell r) st

/-- Models `VgaConsole::clear` (lines 92-102): blank every cell in row-major
order (setting `self.row`/`self.col` before each write, as the source
does), then home the cursor. -/
def VgaConsole.clear (s : VgaConsole) : VgaConsole :=
  let s2 := (List.range s.height).foldl VgaConsole.clearRow s
  { s2 with row := 0, col := 0 }

/-- Models one iteration of the character loop in
`<VgaConsole as core::fmt::Write>::write_str` (lines 131-152): carriage
return, newline, single-byte glyph (code point at most 0xFF, written as
that byte), or substitution with `?` (byte 63). -/
def VgaConsole.putChar (s : VgaConsole) (c : Char) : VgaConsole :=
  if c = '\r' then { s with col := 0 }
  else if c = '\n' then VgaConsole.move_char_down { s with col := 0 }
  else if c.toNat ≤ 255 then (s.write c.toNat none).move_char_right
  else (s.write 63 none).move_char_right

/-- Models `<VgaConsole as core::fmt::Write>::write_str` itself: `data.chars()`
is exactly the `List Char` underlying a Lean `String`. -/
def VgaConsole.write_str (s : VgaConsole) (data : String) : VgaConsole :=
  data.data.foldl VgaConsole.putChar s

/-- Observer: the glyph byte stored for cell `(r, c)`. -/
def VgaConsole.glyphAt (s : VgaConsole) (r c : Nat) : Nat :=
  s.mem ((r * s.width + c) * 2)

/-- Observer: the attribute byte stored for cell `(r, c)`. -/
def VgaConsole.attrAt (s : VgaConsole) (r c : Nat) : Nat :=
  s.mem ((r * s.width + c) * 2 + 1)

/-- Cursor part of the grid-position invariant from the spec:
`row < height ∧ col < width`. -/
def VgaConsole.CursorInBounds (s : VgaConsole) : Prop :=
  s.row < s.height ∧ s.col < s.width

instance (s : VgaConsole) : Decidable s.CursorInBounds := by
  unfold VgaConsole.CursorInBounds
  infer_instance

/-- Concrete 80x25 console used to instantiate theorems, blank memory. -/
def vga80x25 : VgaConsole :=
  { width := 80, height := 25, row := 0, col := 0, mem := fun _ => 32 }

/-- Models `struct Config` (src/lib.rs lines 176-181); `serial_baud` is a
`u32`, so theorems carry the hypothesis `serial_baud < 2 ^ 32`. -/
structure Config where
  vga_console_on : Bool
  serial_console_on : Bool
  serial_baud : Nat
deriving DecidableEq

/-- Models `impl Default for Config` (lines 234-242). -/
def Config.default : Config :=
  { vga_console_on := true, serial_console_on := false, serial_baud := 115200 }

/-- Helper for `varintEncode`: one step per remaining output byte.  The
fuel mirrors postcard's `for i in 0..varint_max::<u32>()` bound of 5
bytes; for every `n < 2 ^ 32` the fuel is never exhausted. -/
def varintEncodeAux : Nat → Nat → List Nat
  | 0, _ => []
  | fuel + 1, n =>
    if n < 128 then [n] else (n % 128 + 128) :: varintEncodeAux fuel (n / 128)

/-- Models the postcard wire format for a `u32` varint, as produced by
`postcard::to_slice`: base-128 little-endian digits, high bit set on every
byte except the last, at most 5 bytes. -/
def varintEncode (n : Nat) : List Nat :=
  varintEncodeAux 5 n

/-- Models postcard's `try_take_varint_u32` loop (`for i in 0..5`): state is
the loop index `i`, the current shift `7 * i`, and the accumulator `out`.
The source step is `out |= ((val & 0x7F) as u32) << (7 * i)`; because the
accumulator always occupies bits below the shift and the new contribution
is truncated to the `u32` bits at or above it, the bit ranges are disjoint
and the `|=` equals the `+` written here, for every input byte list.  A
byte with the high bit clear terminates the loop; a 5th byte larger than
`max_of_last_byte::<u32>() = 15` is a `DeserializeBadVarint` error, as is
running out of input or out of loop iterations. -/
def tryTakeVarintU32 : Nat → Nat → Nat → List Nat → Option (Nat × List Nat)
  | _, _, _, [] => none
  | i, shift, out, b :: rest =>
    if 5 ≤ i then none
    else
      let out2 := out + ((b % 128) <<< shift) % 4294967296
      if b % 256 < 128 then
        if i = 4 ∧ 15 < b then none else some (out2, rest)
      else tryTakeVarintU32 (i + 1) (shift + 7) out2 rest

/-- Models postcard's `bool` deserialisation: one byte, 0 or 1; anything
else is a `DeserializeBadBool` error. -/
def decodeBool : List Nat → Option (Bool × List Nat)
  | 0 :: rest => some (false, rest)
  | 1 :: rest => some (true, rest)
  | _ => none

/-- Models `postcard::to_slice(&config, ...)` for `Config`: serde emits the
fields in declaration order; a `bool` is one byte (0 or 1), a `u32` is a
varint. -/
def Config.encode (c : Config) : List Nat :=
  (if c.vga_console_on then 1 else 0)
    :: (if c.serial_console_on then 1 else 0)
    :: varintEncode c.serial_baud

/-- Models `postcard::from_bytes::<Config>`: deserialise the three fields in
order; trailing bytes (if any) are discarded. -/
def Config.decode (bs : List Nat) : Option Config :=
  match decodeBool bs with
  | none => none
  | some (vga, r1) =>
    match decodeBool r1 with
    | none => none
    | some (ser, r2) =>
      match tryTakeVarintU32 0 0 0 r2 with
      | none => none
      | some (baud, _) => some ⟨vga, ser, baud⟩

/-- Result of the platform call `(api.configuration_get)(buffer)`: on
success, the first `n` bytes of the buffer. -/
inductive CfgGetResult where
  | ok : List Nat → CfgGetResult
  | err : CfgGetResult

/-- Models `Config::load` (src/lib.rs lines 184-196) as a function of the
ambient state: whether `API` is populated, and what `configuration_get`
returns. -/
def Config.load (apiPresent : Bool) (cfgGet : CfgGetResult) : Except String Config :=
  if apiPresent then
    match cfgGet with
    | .ok bytes =>
      match Config.decode bytes with
      | some c => .ok c
      | none => .error "Failed to parse config"
    | .err => .error "Failed to load config"
  else .error "No API available?!"

/-- Models the boot sequencer's
`Config::load().unwrap_or_else(|_| Config::default())` (line 288). -/
def bootConfig (apiPresent : Bool) (cfgGet : CfgGetResult) : Config :=
  match Config.load apiPresent cfgGet with
  | .ok c => c
  | .error _ => Config.default

/-- Outcome of one `print!` invocation (src/lib.rs lines 38-47) with the
given sinks configured.  `VgaConsole::write_str` always returns `Ok`, so
its `unwrap` never fires; `SerialConsole::write_str` (lines 159-172)
unwraps the result of the platform `serial_write` call, so a failing
serial transport panics the process.  The VGA sink is written first. -/
structure DispatchResult where
  vga : Option VgaConsole
  vgaReceived : Bool
  serialReceived : Bool
  panicked : Bool

/-- Models the `print!` macro body: forward the text to the VGA console if
one is configured, then to the serial console if one is configured;
`serialWriteFails` says whether the platform `serial_write` call returns
an error (which the source unwraps). -/
def dispatchPrint (vga : Option VgaConsole) (serialPresent : Bool)
    (serialWriteFails : Bool) (text : String) : DispatchResult :=
  let vga2 := vga.map (VgaConsole.write_str · text)
  let vgaRecv := vga.isSome
  if serialPresent then
    if serialWriteFails then
      { vga := vga2, vgaReceived := vgaRecv, serialReceived := false, panicked := true }
    else
      { vga := vga2, vgaReceived := vgaRecv, serialReceived := true, panicked := false }
  else
    { vga := vga2, vgaReceived := vgaRecv, serialReceived := false, panicked := false }

/-- Value every byte written by the clear loop carries: glyph offsets are
even and get the space byte, attribute offsets are odd and get the default
attribute. -/
def blankVal (o : Nat) : Nat := if o % 2 = 0 then 32 else VgaConsole.DEFAULT_ATTR

/-- `u8` bounds that the boot sequencer guarantees for a constructed
console: dimensions fit in a `u8` and are at least 1. -/
def VgaConsole.U8Dims (s : VgaConsole) : Prop :=
  1 ≤ s.width ∧ s.width ≤ 255 ∧ 1 ≤ s.height ∧ s.height ≤ 255

instance (s : VgaConsole) : Decidable s.U8Dims := by
  unfold VgaConsole.U8Dims
  infer_instance

/-! ### Concrete instances used as evidence. -/

/-- 1x1 console holding glyph 'X' (0x58) in its only cell, cursor at home. -/
def vga1x1X : VgaConsole :=
  { width := 1, height := 1, row := 0, col := 0, mem := fun o => if o = 0 then 88 else 7 }

/-- 1x2 console: 'A' at (0,0), 'B' at (1,0). -/
def vga1x2AB : VgaConsole :=
  { width := 1, height := 2, row := 0, col := 0,
    mem := fun o => if o = 0 then 65 else if o = 2 then 66 else 7 }

/-- 128x2 console whose row-0 bytes are all 1 and row-1 bytes all 2. -/
def vga128x2 : VgaConsole :=
  { width := 128, height := 2, row := 0, col := 0, mem := fun o => if o < 256 then 1 else 2 }

/-- 2x2 console in the state `scroll_page` is actually called from
(`row = height`), with distinguishable memory bytes. -/
def vgaScrollReady : VgaConsole :=
  { width := 2, height := 2, row := 2, col := 0, mem := fun o => o + 10 }

/-- Small dirty console: nonzero cursor and non-blank memory. -/
def vgaDirty : VgaConsole :=
  { width := 2, height := 2, row := 1, col := 1, mem := fun o => o + 1 }

/-- Blank 2x2 console with the cursor at home. -/
def vga2x2 : VgaConsole :=
  { width := 2, height := 2, row := 0, col := 0, mem := fun _ => 32 }

/-- The scenario string from the spec: eighty `A`s then one `B`. -/
def scenarioStr : String := String.mk (List.replicate 80 'A' ++ ['B'])


/-! ### Basic shape lemmas: which fields each operation leaves untouched. -/

theorem VgaConsole.write_width (s : VgaConsole) (g : Nat) (a : Option Nat) :
    (s.write g a).width = s.width := by cases a <;> rfl

theorem VgaConsole.write_height (s : VgaConsole) (g : Nat) (a : Option Nat) :
    (s.write g a).height = s.height := by cases a <;> rfl

theorem VgaConsole.write_row (s : VgaConsole) (g : Nat) (a : Option Nat) :
    (s.write g a).row = s.row := by cases a <;> rfl

theorem VgaConsole.write_col (s : VgaConsole) (g : Nat) (a : Option Nat) :
    (s.write g a).col = s.col := by cases a <;> rfl

theorem VgaConsole.write_mem_some (s : VgaConsole) (g a o : Nat) :
    (s.write g (some a)).mem o =
      if o = (s.row * s.width + s.col) * 2 + 1 then a
      else if o = (s.row * s.width + s.col) * 2 then g
      else s.mem o := rfl

theorem VgaConsole.write_mem_none (s : VgaConsole) (g o : Nat) :
    (s.write g none).mem o =
      if o = (s.row * s.width + s.col) * 2 then g else s.mem o := rfl

theorem VgaConsole.blankCell_mem (r : Nat) (st : VgaConsole) (c o : Nat) :
    (VgaConsole.blankCell r st c).mem o =
      if o = (r * st.width + c) * 2 + 1 then VgaConsole.DEFAULT_ATTR
      else if o = (r * st.width + c) * 2 then 32
      else st.mem o := rfl

theorem VgaConsole.blankCell_width (r : Nat) (st : VgaConsole) (c : Nat) :
    (VgaConsole.blankCell r st c).width = st.width := rfl

theorem VgaConsole.blankCell_height (r : Nat) (st : VgaConsole) (c : Nat) :
    (VgaConsole.blankCell r st c).height = st.height := rfl

theorem VgaConsole.scrollBlankStep_mem (st : VgaConsole) (c o : Nat) :
    (VgaConsole.scrollBlankStep st c).mem o =
      if o = (st.row * st.width + c) * 2 + 1 then VgaConsole.DEFAULT_ATTR
      else if o = (st.row * st.width + c) * 2 then 32
      else st.mem o := rfl

theorem VgaConsole.scrollBlankStep_width (st : VgaConsole) (c : Nat) :
    (VgaConsole.scrollBlankStep st c).width = st.width := rfl

theorem VgaConsole.scrollBlankStep_height (st : VgaConsole) (c : Nat) :
    (VgaConsole.scrollBlankStep st c).height = st.height := rfl

theorem VgaConsole.scrollBlankStep_row (st : VgaConsole) (c : Nat) :
    (VgaConsole.scrollBlankStep st c).row = st.row := rfl

/-! ### Generic fold lemmas used for the clear / scroll loops. -/

theorem foldl_preserves {α : Type} (P : VgaConsole → Prop)
    (f : VgaConsole → α → VgaConsole) (hf : ∀ st a, P st → P (f st a)) :
    ∀ (l : List α) (s : VgaConsole), P s → P (l.foldl f s) := by
  intro l
  induction l with
  | nil => intro s hs; exact hs
  | cons a t ih => intro s hs; exact ih (f s a) (hf s a hs)

theorem foldl_establishes {α : Type} (P Q : VgaConsole → Prop)
    (f : VgaConsole → α → VgaConsole) (a : α)
    (hP : ∀ st b, P st → P (f st b))
    (hQ : ∀ st b, Q st → Q (f st b))
    (hest : ∀ st, P st → Q (f st a)) :
    ∀ (l : List α) (s : VgaConsole), a ∈ l → P s → Q (l.foldl f s) := by
  intro l
  induction l with
  | nil => intro s h; exact absurd h (List.not_mem_nil a)
  | cons b t ih =>
    intro s hmem hs
    rcases List.mem_cons.mp hmem with heq | hmem2
    · subst heq
      exact foldl_preserves Q f hQ t (f s a) (hest s hs)
    · exact ih (f s b) hmem2 (hP s b hs)

/-! ### Clear: every cell becomes (space, default attribute). -/

theorem blankCell_pres_blankVal (r : Nat) (st : VgaConsole) (c o : Nat)
    (h : st.mem o = blankVal o) :
    (VgaConsole.blankCell r st c).mem o = blankVal o := by
  rw [VgaConsole.blankCell_mem]
  by_cases h1 : o = (r * st.width + c) * 2 + 1
  · subst h1
    have hodd : ((r * st.width + c) * 2 + 1) % 2 = 1 := by omega
    simp [blankVal, hodd]
  · rw [if_neg h1]
    by_cases h2 : o = (r * st.width + c) * 2
    · subst h2
      have heven : ((r * st.width + c) * 2) % 2 = 0 := by omega
      simp [blankVal, heven]
    · rw [if_neg h2]; exact h

theorem blankCell_est_blankVal (r : Nat) (st : VgaConsole) (c : Nat) :
    (VgaConsole.blankCell r st c).mem ((r * st.width + c) * 2) = blankVal ((r * st.width + c) * 2) ∧
    (VgaConsole.blankCell r st c).mem ((r * st.width + c) * 2 + 1) =
      blankVal ((r * st.width + c) * 2 + 1) := by
  constructor
  · rw [VgaConsole.blankCell_mem, if_neg (by omega), if_pos rfl]
    have heven : ((r * st.width + c) * 2) % 2 = 0 := by omega
    simp [blankVal, heven]
  · rw [VgaConsole.blankCell_mem, if_pos rfl]
    have hodd : ((r * st.width + c) * 2 + 1) % 2 = 1 := by omega
    simp [blankVal, hodd]

theorem clearRow_width (st : VgaConsole) (r : Nat) :
    (st.clearRow r).width = st.width := by
  unfold VgaConsole.clearRow
  exact foldl_preserves (fun x => x.width = st.width) (VgaConsole.blankCell r)
    (fun st2 a h => h) _ st rfl

theorem clearRow_height (st : VgaConsole) (r : Nat) :
    (st.clearRow r).height = st.height := by
  unfold VgaConsole.clearRow
  exact foldl_preserves (fun x => x.height = st.height) (VgaConsole.blankCell r)
    (fun st2 a h => h) _ st rfl

theorem clearRow_pres_blankVal (st : VgaConsole) (r o : Nat)
    (h : st.mem o = blankVal o) : (st.clearRow r).mem o = blankVal o := by
  unfold VgaConsole.clearRow
  exact foldl_preserves (fun x => x.mem o = blankVal o) (VgaConsole.blankCell r)
    (fun st2 a h2 => blankCell_pres_blankVal r st2 a o h2) _ st h

theorem clearRow_est_blankVal (W r c : Nat) (st : VgaConsole)
    (hW : st.width = W) (hc : c < W) :
    (st.clearRow r).mem ((r * W + c) * 2) = blankVal ((r * W + c) * 2) ∧
    (st.clearRow r).mem ((r * W + c) * 2 + 1) = blankVal ((r * W + c) * 2 + 1) := by
  unfold VgaConsole.clearRow
  rw [hW]
  refine foldl_establishes (fun x => x.width = W)
    (fun x => x.mem ((r * W + c) * 2) = blankVal ((r * W + c) * 2) ∧
      x.mem ((r * W + c) * 2 + 1) = blankVal ((r * W + c) * 2 + 1))
    (VgaConsole.blankCell r) c
    (fun st2 b h => h)
    (fun st2 b h => ⟨blankCell_pres_blankVal r st2 b _ h.1,
      blankCell_pres_blankVal r st2 b _ h.2⟩)
    (fun st2 h => by
      have := blankCell_est_blankVal r st2 c
      rw [h] at this
      exact this)
    (List.range W) st (List.mem_range.mpr hc) hW

theorem clear_fold_width (s : VgaConsole) :
    ((List.range s.height).foldl VgaConsole.clearRow s).width = s.width :=
  foldl_preserves (fun x => x.width = s.width) VgaConsole.clearRow
    (fun st a h => by show (st.clearRow a).width = s.width; rw [clearRow_width]; exact h) _ s rfl

theorem clear_fold_height (s : VgaConsole) :
    ((List.range s.height).foldl VgaConsole.clearRow s).height = s.height :=
  foldl_preserves (fun x => x.height = s.height) VgaConsole.clearRow
    (fun st a h => by show (st.clearRow a).height = s.height; rw [clearRow_height]; exact h) _ s rfl

theorem clear_width (s : VgaConsole) : (s.clear).width = s.width := by
  unfold VgaConsole.clear
  exact clear_fold_width s

theorem clear_height (s : VgaConsole) : (s.clear).height = s.height := by
  unfold VgaConsole.clear
  exact clear_fold_height s

theorem clear_mem_blankVal (s : VgaConsole) (r c : Nat)
    (hr : r < s.height) (hc : c < s.width) :
    (s.clear).mem ((r * s.width + c) * 2) = blankVal ((r * s.width + c) * 2) ∧
    (s.clear).mem ((r * s.width + c) * 2 + 1) = blankVal ((r * s.width + c) * 2 + 1) := by
  unfold VgaConsole.clear
  refine foldl_establishes (fun x => x.width = s.width)
    (fun x => x.mem ((r * s.width + c) * 2) = blankVal ((r * s.width + c) * 2) ∧
      x.mem ((r * s.width + c) * 2 + 1) = blankVal ((r * s.width + c) * 2 + 1))
    VgaConsole.clearRow r
    (fun st b h => by show (st.clearRow b).width = s.width; rw [clearRow_width]; exact h)
    (fun st b h => ⟨clearRow_pres_blankVal st b _ h.1, clearRow_pres_blankVal st b _ h.2⟩)
    (fun st h => clearRow_est_blankVal s.width r c st h hc)
    (List.range s.height) s (List.mem_range.mpr hr) rfl

/-! ### Scroll: the copy shifts rows up; the blanking pass stays above
`row * width * 2`, so it cannot touch the shifted rows when `row = height`. -/

theorem scrollBlankFold_shape (l : List Nat) : ∀ st : VgaConsole,
    (l.foldl VgaConsole.scrollBlankStep st).width = st.width ∧
    (l.foldl VgaConsole.scrollBlankStep st).height = st.height ∧
    (l.foldl VgaConsole.scrollBlankStep st).row = st.row := by
  induction l with
  | nil => intro st; exact ⟨rfl, rfl, rfl⟩
  | cons c t ih =>
    intro st
    rw [List.foldl_cons]
    exact ih (VgaConsole.scrollBlankStep st c)

theorem scrollBlankFold_mem_low (l : List Nat) : ∀ (st : VgaConsole) (o : Nat),
    o < st.row * st.width * 2 →
    (l.foldl VgaConsole.scrollBlankStep st).mem o = st.mem o := by
  induction l with
  | nil => intro st o _; rfl
  | cons c t ih =>
    intro st o ho
    rw [List.foldl_cons, ih (VgaConsole.scrollBlankStep st c) o ho]
    rw [VgaConsole.scrollBlankStep_mem]
    have h1 : o ≠ (st.row * st.width + c) * 2 + 1 := by
      have : st.row * st.width * 2 ≤ (st.row * st.width + c) * 2 := by omega
      omega
    have h2 : o ≠ (st.row * st.width + c) * 2 := by
      have : st.row * st.width * 2 ≤ (st.row * st.width + c) * 2 := by omega
      omega
    rw [if_neg h1, if_neg h2]

theorem scroll_page_width (s : VgaConsole) : (s.scroll_page).width = s.width := by
  unfold VgaConsole.scroll_page
  exact (scrollBlankFold_shape _ _).1

theorem scroll_page_height (s : VgaConsole) : (s.scroll_page).height = s.height := by
  unfold VgaConsole.scroll_page
  exact (scrollBlankFold_shape _ _).2.1

theorem scroll_page_row (s : VgaConsole) : (s.scroll_page).row = s.row := by
  unfold VgaConsole.scroll_page
  exact (scrollBlankFold_shape _ _).2.2

theorem scroll_page_col (s : VgaConsole) : (s.scroll_page).col = 0 := rfl

/-- Memory below the copied region after a scroll triggered with
`row = height` (the only call site): byte `o` of the shifted region now
holds old byte `width * 2 + o`.  Requires `width ≤ 127` so that the `u8`
product `self.width * 2` does not wrap, and the `u8` bounds on `height`. -/
theorem scroll_page_mem_low (s : VgaConsole) (o : Nat)
    (hrow : s.row = s.height) (hW1 : 1 ≤ s.width) (hW : s.width ≤ 127)
    (hH1 : 1 ≤ s.height) (hH : s.height ≤ 255)
    (ho : o < s.width * (s.height - 1) * 2) :
    (s.scroll_page).mem o = s.mem (s.width * 2 + o) := by
  unfold VgaConsole.scroll_page
  have hsrc : wMul s.width 2 = s.width * 2 := by unfold wMul; omega
  have hcnt : wSub s.height 1 = s.height - 1 := by unfold wSub; omega
  rw [scrollBlankFold_mem_low]
  · simp only [hsrc, hcnt]
    rw [if_pos ho]
  · simp only [hcnt]
    calc o < s.width * (s.height - 1) * 2 := ho
    _ ≤ s.width * s.height * 2 := by
        have : s.width * (s.height - 1) ≤ s.width * s.height :=
          Nat.mul_le_mul_left _ (Nat.sub_le _ _)
        omega
    _ = s.height * s.width * 2 := by ring
    _ = s.row * s.width * 2 := by rw [hrow]

/-! ### Cursor dynamics of `move_char_down`, `move_char_right`, `putChar`. -/

theorem move_char_down_width (s : VgaConsole) :
    (s.move_char_down).width = s.width := by
  unfold VgaConsole.move_char_down
  by_cases h : wAdd s.row 1 = s.height
  · simp only [h, if_pos rfl]
    exact scroll_page_width _
  · simp only [if_neg h]

theorem move_char_down_height (s : VgaConsole) :
    (s.move_char_down).height = s.height := by
  unfold VgaConsole.move_char_down
  by_cases h : wAdd s.row 1 = s.height
  · simp only [h, if_pos rfl]
    exact scroll_page_height _
  · simp only [if_neg h]

/-- Without a scroll (the incremented row misses `height`), `move_char_down`
only bumps the row. -/
theorem move_char_down_no_scroll (s : VgaConsole)
    (hH : s.height ≤ 255) (h : s.row + 1 < s.height) :
    s.move_char_down = { s with row := s.row + 1 } := by
  unfold VgaConsole.move_char_down
  have ha : wAdd s.row 1 = s.row + 1 := by unfold wAdd; omega
  simp only [ha]
  rw [if_neg (by omega)]

/-- With a scroll, the row is clamped to `height - 1` and the column reset
to 0; together with the cursor bound this keeps the cursor in bounds. -/
theorem move_char_down_cursor (s : VgaConsole)
    (hU : s.U8Dims) (hrow : s.row < s.height) :
    (s.move_char_down).row < s.height ∧ (s.move_char_down).col = s.col ∨
    (s.move_char_down).row < s.height ∧ (s.move_char_down).col = 0 := by
  obtain ⟨hW1, hW, hH1, hH⟩ := hU
  unfold VgaConsole.move_char_down
  have ha : wAdd s.row 1 = s.row + 1 := by unfold wAdd; omega
  simp only [ha]
  by_cases h : s.row + 1 = s.height
  · rw [if_pos (by exact h)]
    right
    constructor
    · have hs : wSub ({ s with row := s.row + 1 } : VgaConsole).scroll_page.height 1
          = s.height - 1 := by
        rw [scroll_page_height]
        show wSub s.height 1 = s.height - 1
        unfold wSub
        omega
      simp only [hs]
      show s.height - 1 < s.height
      omega
    · rfl
  · rw [if_neg (by exact h)]
    left
    refine ⟨?_, rfl⟩
    show s.row + 1 < s.height
    omega

theorem move_char_right_no_wrap (t : VgaConsole) (hW : t.width ≤ 255)
    (hcol : t.col < t.width) (hne : t.col + 1 ≠ t.width) :
    t.move_char_right = { t with col := t.col + 1 } := by
  unfold VgaConsole.move_char_right
  dsimp only
  have ha : wAdd t.col 1 = t.col + 1 := by unfold wAdd; omega
  rw [ha, if_neg hne]

theorem move_char_right_wrap (t : VgaConsole) (hW : t.width ≤ 255) (hH : t.height ≤ 255)
    (_hcol : t.col < t.width) (heq : t.col + 1 = t.width) (hrow : t.row + 1 < t.height) :
    t.move_char_right = { t with col := 0, row := t.row + 1 } := by
  unfold VgaConsole.move_char_right
  dsimp only
  have ha : wAdd t.col 1 = t.col + 1 := by unfold wAdd; omega
  rw [ha, if_pos heq]
  rw [move_char_down_no_scroll { t with col := 0 } (by exact hH) (by exact hrow)]

theorem putChar_cr (s : VgaConsole) : s.putChar '\r' = { s with col := 0 } := by
  unfold VgaConsole.putChar
  rw [if_pos rfl]

theorem putChar_nl_no_scroll (s : VgaConsole) (hH : s.height ≤ 255)
    (h : s.row + 1 < s.height) :
    s.putChar '\n' = { s with col := 0, row := s.row + 1 } := by
  unfold VgaConsole.putChar
  rw [if_neg (by decide), if_pos rfl]
  rw [move_char_down_no_scroll { s with col := 0 } (by exact hH) (by exact h)]

theorem putChar_glyph (s : VgaConsole) (c : Char) (h1 : c ≠ '\r') (h2 : c ≠ '\n') :
    s.putChar c = (s.write (if c.toNat ≤ 255 then c.toNat else 63) none).move_char_right := by
  unfold VgaConsole.putChar
  rw [if_neg h1, if_neg h2]
  by_cases h3 : c.toNat ≤ 255
  · rw [if_pos h3, if_pos h3]
  · rw [if_neg h3, if_neg h3]

theorem putChar_glyph_no_wrap (s : VgaConsole) (c : Char)
    (h1 : c ≠ '\r') (h2 : c ≠ '\n') (hW : s.width ≤ 255)
    (hcol : s.col < s.width) (hne : s.col + 1 ≠ s.width) :
    s.putChar c =
      { s.write (if c.toNat ≤ 255 then c.toNat else 63) none with col := s.col + 1 } := by
  rw [putChar_glyph s c h1 h2]
  exact move_char_right_no_wrap _ hW hcol hne

theorem putChar_glyph_wrap (s : VgaConsole) (c : Char)
    (h1 : c ≠ '\r') (h2 : c ≠ '\n') (hW : s.width ≤ 255) (hH : s.height ≤ 255)
    (hcol : s.col < s.width) (heq : s.col + 1 = s.width) (hrow : s.row + 1 < s.height) :
    s.putChar c =
      { s.write (if c.toNat ≤ 255 then c.toNat else 63) none with
        col := 0, row := s.row + 1 } := by
  rw [putChar_glyph s c h1 h2]
  exact move_char_right_wrap _ hW hH hcol heq hrow

theorem move_char_right_width (s : VgaConsole) : (s.move_char_right).width = s.width := by
  unfold VgaConsole.move_char_right
  dsimp only
  by_cases h : wAdd s.col 1 = s.width
  · rw [if_pos h]
    exact move_char_down_width _
  · rw [if_neg h]

theorem move_char_right_height (s : VgaConsole) : (s.move_char_right).height = s.height := by
  unfold VgaConsole.move_char_right
  dsimp only
  by_cases h : wAdd s.col 1 = s.width
  · rw [if_pos h]
    exact move_char_down_height _
  · rw [if_neg h]

theorem putChar_width (s : VgaConsole) (c : Char) : (s.putChar c).width = s.width := by
  unfold VgaConsole.putChar
  by_cases h1 : c = '\r'
  · rw [if_pos h1]
  · rw [if_neg h1]
    by_cases h2 : c = '\n'
    · rw [if_pos h2]
      exact move_char_down_width _
    · rw [if_neg h2]
      by_cases h3 : c.toNat ≤ 255
      · rw [if_pos h3]
        exact move_char_right_width _
      · rw [if_neg h3]
        exact move_char_right_width _

theorem putChar_height (s : VgaConsole) (c : Char) : (s.putChar c).height = s.height := by
  unfold VgaConsole.putChar
  by_cases h1 : c = '\r'
  · rw [if_pos h1]
  · rw [if_neg h1]
    by_cases h2 : c = '\n'
    · rw [if_pos h2]
      exact move_char_down_height _
    · rw [if_neg h2]
      by_cases h3 : c.toNat ≤ 255
      · rw [if_pos h3]
        exact move_char_right_height _
      · rw [if_neg h3]
        exact move_char_right_height _

theorem move_char_right_cursor (t : VgaConsole) (hU : t.U8Dims)
    (hrow : t.row < t.height) (hcol : t.col < t.width) :
    (t.move_char_right).row < t.height ∧ (t.move_char_right).col < t.width := by
  obtain ⟨hW1, hW, hH1, hH⟩ := hU
  unfold VgaConsole.move_char_right
  dsimp only
  have ha : wAdd t.col 1 = t.col + 1 := by unfold wAdd; omega
  rw [ha]
  by_cases h : t.col + 1 = t.width
  · rw [if_pos h]
    have hmc := move_char_down_cursor { t with col := 0 } ⟨hW1, hW, hH1, hH⟩ hrow
    rcases hmc with ⟨hr, hc⟩ | ⟨hr, hc⟩
    · refine ⟨hr, ?_⟩
      rw [hc]
      show 0 < t.width
      omega
    · refine ⟨hr, ?_⟩
      rw [hc]
      omega
  · rw [if_neg h]
    refine ⟨hrow, ?_⟩
    show t.col + 1 < t.width
    omega

theorem putChar_cursor_bounds (s : VgaConsole) (c : Char)
    (hU : s.U8Dims) (hrow : s.row < s.height) (hcol : s.col < s.width) :
    (s.putChar c).row < s.height ∧ (s.putChar c).col < s.width := by
  obtain ⟨hW1, hW, hH1, hH⟩ := hU
  by_cases h1 : c = '\r'
  · subst h1
    rw [putChar_cr]
    exact ⟨hrow, by show 0 < s.width; omega⟩
  · by_cases h2 : c = '\n'
    · subst h2
      unfold VgaConsole.putChar
      rw [if_neg (by decide), if_pos rfl]
      have hmc := move_char_down_cursor { s with col := 0 } ⟨hW1, hW, hH1, hH⟩ hrow
      rcases hmc with ⟨hr, hc⟩ | ⟨hr, hc⟩
      · exact ⟨hr, by rw [hc]; show 0 < s.width; omega⟩
      · exact ⟨hr, by rw [hc]; omega⟩
    · rw [putChar_glyph s c h1 h2]
      exact move_char_right_cursor (s.write (if c.toNat ≤ 255 then c.toNat else 63) none)
        ⟨hW1, hW, hH1, hH⟩ hrow hcol

/-! ### Whole-string dynamics. -/

theorem putChar_pres_P (s : VgaConsole) (st : VgaConsole) (c : Char)
    (hU : s.U8Dims)
    (h : st.width = s.width ∧ st.height = s.height ∧ st.row < st.height ∧ st.col < st.width) :
    (st.putChar c).width = s.width ∧ (st.putChar c).height = s.height ∧
    (st.putChar c).row < (st.putChar c).height ∧
    (st.putChar c).col < (st.putChar c).width := by
  obtain ⟨hw, hh, hr, hc⟩ := h
  obtain ⟨hW1, hW, hH1, hH⟩ := hU
  have hU2 : st.U8Dims := ⟨by omega, by omega, by omega, by omega⟩
  have hb := putChar_cursor_bounds st c hU2 hr hc
  refine ⟨?_, ?_, ?_, ?_⟩
  · rw [putChar_width]
    exact hw
  · rw [putChar_height]
    exact hh
  · rw [putChar_height]
    exact hb.1
  · rw [putChar_width]
    exact hb.2

theorem write_str_P (s : VgaConsole) (str : String)
    (hU : s.U8Dims) (hcur : s.CursorInBounds) :
    (s.write_str str).width = s.width ∧ (s.write_str str).height = s.height ∧
    (s.write_str str).row < (s.write_str str).height ∧
    (s.write_str str).col < (s.write_str str).width := by
  unfold VgaConsole.write_str
  exact foldl_preserves
    (fun st => st.width = s.width ∧ st.height = s.height ∧
      st.row < st.height ∧ st.col < st.width)
    VgaConsole.putChar
    (fun st c h => putChar_pres_P s st c hU h)
    str.data s ⟨rfl, rfl, hcur.1, hcur.2⟩

/-- A run of glyph characters that exactly fills the rest of the current
row wraps the cursor to column 0 of the next row (no scroll as long as the
next row exists). -/
theorem glyph_run_wraps (l : List Char) : ∀ s : VgaConsole,
    s.width ≤ 255 → s.height ≤ 255 → s.row + 1 < s.height →
    s.col + l.length = s.width →
    (∀ c ∈ l, c.toNat ≤ 255 ∧ c ≠ '\r' ∧ c ≠ '\n') → l ≠ [] →
    (l.foldl VgaConsole.putChar s).row = s.row + 1 ∧
    (l.foldl VgaConsole.putChar s).col = 0 := by
  induction l with
  | nil => intro s _ _ _ _ _ hne; exact absurd rfl hne
  | cons c t ih =>
    intro s hW hH hrow hlen hcs _
    obtain ⟨hc255, hcr, hnl⟩ := hcs c (List.mem_cons_self c t)
    rw [List.foldl_cons]
    cases t with
    | nil =>
      have heq : s.col + 1 = s.width := by simpa using hlen
      have hcol : s.col < s.width := by omega
      rw [putChar_glyph_wrap s c hcr hnl hW hH hcol heq hrow]
      exact ⟨rfl, rfl⟩
    | cons c2 t2 =>
      simp only [List.length_cons] at hlen
      have hne2 : s.col + 1 ≠ s.width := by omega
      have hcol : s.col < s.width := by omega
      rw [putChar_glyph_no_wrap s c hcr hnl hW hcol hne2]
      have hres := ih
        { s.write (if c.toNat ≤ 255 then c.toNat else 63) none with col := s.col + 1 }
        (by exact hW) (by exact hH) (by exact hrow)
        (by
          show s.col + 1 + (c2 :: t2).length = s.width
          simp only [List.length_cons]
          omega)
        (fun c3 h3 => hcs c3 (List.mem_cons_of_mem c h3))
        (by simp)
      exact ⟨hres.1, hres.2⟩

/-- A run of carriage returns never touches memory (nor the dimensions). -/
theorem cr_run_id (l : List Char) : ∀ s : VgaConsole, (∀ c ∈ l, c = '\r') →
    (l.foldl VgaConsole.putChar s).mem = s.mem ∧
    (l.foldl VgaConsole.putChar s).width = s.width ∧
    (l.foldl VgaConsole.putChar s).height = s.height := by
  induction l with
  | nil => intro s _; exact ⟨rfl, rfl, rfl⟩
  | cons c t ih =>
    intro s hall
    have hc : c = '\r' := hall c (List.mem_cons_self c t)
    subst hc
    rw [List.foldl_cons, putChar_cr]
    exact ih { s with col := 0 } (fun c2 h2 => hall c2 (List.mem_cons_of_mem _ h2))

/-- A run of newlines that never reaches the bottom row never touches
memory (nor the dimensions). -/
theorem nl_run_no_scroll (l : List Char) : ∀ s : VgaConsole, (∀ c ∈ l, c = '\n') →
    s.height ≤ 255 → s.row + l.length < s.height →
    (l.foldl VgaConsole.putChar s).mem = s.mem ∧
    (l.foldl VgaConsole.putChar s).width = s.width ∧
    (l.foldl VgaConsole.putChar s).height = s.height := by
  induction l with
  | nil => intro s _ _ _; exact ⟨rfl, rfl, rfl⟩
  | cons c t ih =>
    intro s hall hH hrow
    have hc : c = '\n' := hall c (List.mem_cons_self c t)
    subst hc
    rw [List.foldl_cons,
      putChar_nl_no_scroll s hH (by simp only [List.length_cons] at hrow; omega)]
    exact ih { s with col := 0, row := s.row + 1 }
      (fun c2 h2 => hall c2 (List.mem_cons_of_mem _ h2))
      (by exact hH)
      (by
        show s.row + 1 + t.length < s.height
        simp only [List.length_cons] at hrow
        omega)

/-! ### The varint round trip. -/

theorem tryTakeVarintU32_cons (i shift out b : Nat) (rest : List Nat) :
    tryTakeVarintU32 i shift out (b :: rest) =
      if 5 ≤ i then none
      else
        if b % 256 < 128 then
          if i = 4 ∧ 15 < b then none
          else some (out + ((b % 128) <<< shift) % 4294967296, rest)
        else tryTakeVarintU32 (i + 1) (shift + 7) (out + ((b % 128) <<< shift) % 4294967296) rest
    := rfl

theorem tryTake_varintEncodeAux : ∀ (fuel i out : Nat) (rest : List Nat) (n : Nat),
    i + fuel = 5 → i ≤ 4 → n < 2 ^ (32 - 7 * i) →
    tryTakeVarintU32 i (7 * i) out (varintEncodeAux fuel n ++ rest) =
      some (out + n * 2 ^ (7 * i), rest) := by
  intro fuel
  induction fuel with
  | zero => intro i out rest n h5 h4 _; omega
  | succ fuel ih =>
    intro i out rest n h5 h4 hn
    show tryTakeVarintU32 i (7 * i) out
      ((if n < 128 then [n] else (n % 128 + 128) :: varintEncodeAux fuel (n / 128)) ++ rest)
      = some (out + n * 2 ^ (7 * i), rest)
    by_cases hsmall : n < 128
    · rw [if_pos hsmall, List.singleton_append, tryTakeVarintU32_cons,
        if_neg (show ¬ 5 ≤ i by omega)]
      rw [Nat.mod_eq_of_lt (show n < 256 by omega), if_pos hsmall]
      have hck : ¬ (i = 4 ∧ 15 < n) := by
        rintro ⟨rfl, h15⟩
        rw [show 32 - 7 * 4 = 4 by norm_num] at hn
        norm_num at hn
        omega
      rw [if_neg hck]
      have hm : n % 128 = n := Nat.mod_eq_of_lt hsmall
      rw [hm, Nat.shiftLeft_eq, Nat.mod_eq_of_lt]
      calc n * 2 ^ (7 * i) < 2 ^ (32 - 7 * i) * 2 ^ (7 * i) :=
            mul_lt_mul_of_pos_right hn (pow_pos (by norm_num) _)
      _ = 2 ^ 32 := by rw [← pow_add]; congr 1; omega
      _ = 4294967296 := by norm_num
    · rw [if_neg hsmall, List.cons_append, tryTakeVarintU32_cons,
        if_neg (show ¬ 5 ≤ i by omega)]
      have hge : ¬ ((n % 128 + 128) % 256 < 128) := by omega
      rw [if_neg hge]
      have hi3 : i ≤ 3 := by
        by_contra hgt
        have hi4 : i = 4 := by omega
        subst hi4
        rw [show 32 - 7 * 4 = 4 by norm_num] at hn
        norm_num at hn
        omega
      have hb : (n % 128 + 128) % 128 = n % 128 := by omega
      rw [hb]
      have hsh : ((n % 128) <<< (7 * i)) % 4294967296 = (n % 128) * 2 ^ (7 * i) := by
        rw [Nat.shiftLeft_eq]
        apply Nat.mod_eq_of_lt
        calc (n % 128) * 2 ^ (7 * i) < 128 * 2 ^ (7 * i) :=
              mul_lt_mul_of_pos_right (Nat.mod_lt _ (by norm_num)) (pow_pos (by norm_num) _)
        _ = 2 ^ (7 + 7 * i) := by rw [pow_add]; norm_num
        _ ≤ 2 ^ 32 := Nat.pow_le_pow_right (by norm_num) (by omega)
        _ = 4294967296 := by norm_num
      rw [hsh, show 7 * i + 7 = 7 * (i + 1) by ring]
      have hdiv : n / 128 < 2 ^ (32 - 7 * (i + 1)) := by
        have hexp : 32 - 7 * i = (32 - 7 * (i + 1)) + 7 := by omega
        rw [hexp, pow_add, show (2:Nat) ^ 7 = 128 by norm_num] at hn
        exact (Nat.div_lt_iff_lt_mul (by norm_num)).mpr hn
      rw [ih (i + 1) (out + n % 128 * 2 ^ (7 * i)) rest (n / 128) (by omega) (by omega) hdiv]
      have hp : (2:Nat) ^ (7 * (i + 1)) = 2 ^ (7 * i) * 128 := by
        rw [show 7 * (i + 1) = 7 * i + 7 by ring, pow_add]
        norm_num
      have hsum : out + n % 128 * 2 ^ (7 * i) + n / 128 * 2 ^ (7 * (i + 1))
          = out + n * 2 ^ (7 * i) := by
        rw [hp]
        have hmd : n % 128 + 128 * (n / 128) = n := Nat.mod_add_div n 128
        calc out + n % 128 * 2 ^ (7 * i) + n / 128 * (2 ^ (7 * i) * 128)
            = out + (n % 128 + 128 * (n / 128)) * 2 ^ (7 * i) := by ring
        _ = out + n * 2 ^ (7 * i) := by rw [hmd]
      rw [hsum]

theorem varint_roundtrip (n : Nat) (h : n < 4294967296) :
    tryTakeVarintU32 0 0 0 (varintEncode n) = some (n, []) := by
  have h5 := tryTake_varintEncodeAux 5 0 0 [] n (by norm_num) (by norm_num)
    (by simpa using h)
  simpa [varintEncode] using h5

theorem putChar_high (s : VgaConsole) (c : Char) (hc : 255 < c.toNat) :
    s.putChar c = (s.write 63 none).move_char_right := by
  have h1 : c ≠ '\r' := fun h => absurd hc (by rw [h]; decide)
  have h2 : c ≠ '\n' := fun h => absurd hc (by rw [h]; decide)
  rw [putChar_glyph s c h1 h2, if_neg (by omega)]

theorem config_roundtrip_core (vga ser : Bool) (baud : Nat) (h : baud < 4294967296) :
    Config.decode (Config.encode ⟨vga, ser, baud⟩) = some ⟨vga, ser, baud⟩ := by
  have hv := varint_roundtrip baud h
  cases vga <;> cases ser <;> simp [Config.encode, Config.decode, decodeBool, hv]

/-! ### Claim theorems. -/

/-- C1 (code bug evidence): a scroll is triggered from `move_char_down`
while `self.row` still equals `height` (the clamp to `height - 1` happens
only after `scroll_page` returns), so the "blank bottom line" loop writes
one row past the grid and the visible bottom row keeps its old bytes.  On
the 1x1 grid a newline leaves cell (0,0) holding 'X' (0x58), not blank,
with the cursor row back at 0; on the 1x2 grid two newlines leave the
bottom row still holding 'B' (0x42) instead of a blank. -/
theorem newline_scroll_leaves_bottom_row_stale :
    ((vga1x1X.write_str "\n").glyphAt 0 0 = 88 ∧
      (vga1x1X.write_str "\n").glyphAt 0 0 ≠ 32 ∧
      (vga1x1X.write_str "\n").row = 0) ∧
    ((vga1x2AB.write_str "\n\n").glyphAt 0 0 = 66 ∧
      (vga1x2AB.write_str "\n\n").glyphAt 1 0 = 66 ∧
      (vga1x2AB.write_str "\n\n").glyphAt 1 0 ≠ 32) := by decide

set_option maxRecDepth 8000 in
/-- C2 (counterexample): at width 128 the `u8` product `self.width * 2`
wraps to 0, so the copy source equals the destination and nothing shifts:
after a newline-triggered scroll on the 128x2 grid, row 0 does not hold
what was in row 1. -/
theorem scroll_at_width128_does_not_shift :
    ¬ ((vga128x2.write_str "\n\n").glyphAt 0 0 = vga128x2.glyphAt 1 0) := by decide

/-- C2 (amended): for grids of width at most 127 (so the `u8` product
`self.width * 2` cannot wrap) and height 2..255, a scroll performed in the
state it is actually invoked from (`row = height`) moves both the glyph
and the attribute byte of every cell of row `r + 1` into row `r`, for all
`r` up to `height - 2`. -/
theorem scroll_shifts_rows_up (s : VgaConsole) (r c : Nat)
    (hrow : s.row = s.height) (hW1 : 1 ≤ s.width) (hW : s.width ≤ 127)
    (hH : 2 ≤ s.height) (hH2 : s.height ≤ 255)
    (hr : r + 1 < s.height) (hc : c < s.width) :
    (s.scroll_page).glyphAt r c = s.glyphAt (r + 1) c ∧
    (s.scroll_page).attrAt r c = s.attrAt (r + 1) c := by
  have hoff : r * s.width + c < s.width * (s.height - 1) := by
    have h1 : r * s.width + c < (r + 1) * s.width := by
      have h1a : (r + 1) * s.width = r * s.width + s.width := by ring
      omega
    have h2 : (r + 1) * s.width ≤ (s.height - 1) * s.width :=
      Nat.mul_le_mul_right _ (by omega)
    have h3 : (s.height - 1) * s.width = s.width * (s.height - 1) := by ring
    omega
  constructor
  · show (s.scroll_page).mem ((r * (s.scroll_page).width + c) * 2)
      = s.mem (((r + 1) * s.width + c) * 2)
    rw [scroll_page_width]
    rw [scroll_page_mem_low s _ hrow hW1 hW (by omega) hH2 (by omega)]
    congr 1
    ring
  · show (s.scroll_page).mem ((r * (s.scroll_page).width + c) * 2 + 1)
      = s.mem (((r + 1) * s.width + c) * 2 + 1)
    rw [scroll_page_width]
    rw [scroll_page_mem_low s _ hrow hW1 hW (by omega) hH2 (by omega)]
    congr 1
    ring

/-- Witness for the amended C2 theorem at a concrete 2x2 console. -/
theorem scroll_shifts_rows_up_witness :
    vgaScrollReady.row = vgaScrollReady.height ∧
    (vgaScrollReady.scroll_page).glyphAt 0 1 = vgaScrollReady.glyphAt 1 1 ∧
    (vgaScrollReady.scroll_page).attrAt 0 1 = vgaScrollReady.attrAt 1 1 :=
  ⟨rfl,
    (scroll_shifts_rows_up vgaScrollReady 0 1 rfl (by decide) (by decide)
      (by decide) (by decide) (by decide) (by decide)).1,
    (scroll_shifts_rows_up vgaScrollReady 0 1 rfl (by decide) (by decide)
      (by decide) (by decide) (by decide) (by decide)).2⟩

/-- C3: after `clear()` every cell in bounds is (space, default attribute)
and the cursor is home, for every grid size and prior state. -/
theorem clear_blanks_grid_and_homes_cursor (s : VgaConsole) (r c : Nat)
    (hr : r < s.height) (hc : c < s.width) :
    (s.clear).glyphAt r c = 32 ∧ (s.clear).attrAt r c = VgaConsole.DEFAULT_ATTR ∧
    (s.clear).row = 0 ∧ (s.clear).col = 0 := by
  have hm := clear_mem_blankVal s r c hr hc
  refine ⟨?_, ?_, rfl, rfl⟩
  · show (s.clear).mem ((r * (s.clear).width + c) * 2) = 32
    rw [clear_width, hm.1]
    unfold blankVal
    rw [if_pos (by omega)]
  · show (s.clear).mem ((r * (s.clear).width + c) * 2 + 1) = VgaConsole.DEFAULT_ATTR
    rw [clear_width, hm.2]
    unfold blankVal
    rw [if_neg (by omega)]

/-- Witness for C3 on a concrete dirty 2x2 console. -/
theorem clear_blanks_grid_witness :
    1 < vgaDirty.height ∧ 1 < vgaDirty.width ∧
    ((vgaDirty.clear).glyphAt 1 1 = 32 ∧
     (vgaDirty.clear).attrAt 1 1 = VgaConsole.DEFAULT_ATTR ∧
     (vgaDirty.clear).row = 0 ∧ (vgaDirty.clear).col = 0) :=
  ⟨by decide, by decide,
    clear_blanks_grid_and_homes_cursor vgaDirty 1 1 (by decide) (by decide)⟩

set_option maxRecDepth 8000 in
/-- C4: writing exactly `width` non-control single-byte glyphs from the
home position wraps the cursor to (1, 0) whenever the grid has more than
one row; and on the 80x25 grid, eighty `A`s followed by one `B` leave the
cursor at (1, 1) with 'A' in cell (0,79) and 'B' in cell (1,0). -/
theorem wrap_after_full_row_and_scenario_80x25 :
    (∀ (s : VgaConsole) (str : String),
      1 ≤ s.width → s.width ≤ 255 → s.height ≤ 255 → 1 < s.height →
      s.row = 0 → s.col = 0 → str.data.length = s.width →
      (∀ c ∈ str.data, c.toNat ≤ 255 ∧ c ≠ '\r' ∧ c ≠ '\n') →
      (s.write_str str).row = 1 ∧ (s.write_str str).col = 0) ∧
    ((vga80x25.write_str scenarioStr).row = 1 ∧
     (vga80x25.write_str scenarioStr).col = 1 ∧
     (vga80x25.write_str scenarioStr).glyphAt 0 79 = 65 ∧
     (vga80x25.write_str scenarioStr).glyphAt 1 0 = 66) := by
  constructor
  · intro s str hW0 hW hH hH1 hrow hcol hlen hcs
    have hne : str.data ≠ [] := by
      intro hnil
      rw [hnil] at hlen
      simp only [List.length_nil] at hlen
      omega
    have hrun := glyph_run_wraps str.data s hW hH (by omega) (by omega) hcs hne
    constructor
    · show (str.data.foldl VgaConsole.putChar s).row = 1
      rw [hrun.1, hrow]
    · exact hrun.2
  · refine ⟨by decide, by decide, by decide, by decide⟩

/-- Witness for the universal part of the C4 theorem on a 2x2 console. -/
theorem wrap_after_full_row_witness :
    ("AB".data.length = vga2x2.width ∧
      (∀ c ∈ "AB".data, c.toNat ≤ 255 ∧ c ≠ '\r' ∧ c ≠ '\n')) ∧
    ((vga2x2.write_str "AB").row = 1 ∧ (vga2x2.write_str "AB").col = 0) :=
  ⟨⟨by decide, by decide⟩,
    wrap_after_full_row_and_scenario_80x25.1 vga2x2 "AB" (by decide) (by decide)
      (by decide) (by decide) rfl rfl (by decide) (by decide)⟩

/-- C5: binary-decoding the bytes produced by binary-encoding any `Config`
record (with a `u32`-representable baud) yields that record back. -/
theorem config_encode_decode_roundtrip (c : Config) (h : c.serial_baud < 4294967296) :
    Config.decode (Config.encode c) = some c := by
  obtain ⟨vga, ser, baud⟩ := c
  exact config_roundtrip_core vga ser baud h

/-- Witness for C5: the default record round-trips. -/
theorem config_roundtrip_witness :
    Config.default.serial_baud < 4294967296 ∧
    Config.decode (Config.encode Config.default) = some Config.default :=
  ⟨by decide, config_encode_decode_roundtrip Config.default (by decide)⟩

/-- C6: whenever the platform read fails or the bytes fail to decode, the
boot sequencer proceeds with the hardcoded default record; `bootConfig` is
total, so no load error aborts boot. -/
theorem boot_falls_back_to_default_config (apiPresent : Bool) (cfgGet : CfgGetResult)
    (h : cfgGet = CfgGetResult.err ∨
      ∃ bs, cfgGet = CfgGetResult.ok bs ∧ Config.decode bs = none) :
    bootConfig apiPresent cfgGet = Config.default := by
  rcases h with herr | ⟨bs, hok, hdec⟩
  · subst herr
    cases apiPresent <;> rfl
  · subst hok
    cases apiPresent
    · rfl
    · simp [bootConfig, Config.load, hdec]

/-- Witness for C6: a byte that is not a valid `bool` encoding falls back
to the default record. -/
theorem boot_fallback_witness :
    Config.decode [7] = none ∧
    bootConfig true (CfgGetResult.ok [7]) = Config.default :=
  ⟨by decide,
    boot_falls_back_to_default_config true (CfgGetResult.ok [7])
      (Or.inr ⟨[7], rfl, by decide⟩)⟩

/-- C7 (counterexample): with both sinks configured and a failing serial
transport, the process does not continue — the `unwrap` in
`SerialConsole::write_str` panics. -/
theorem serial_failure_panics_process :
    ¬ ((dispatchPrint (some vga80x25) true true "hi").panicked = false) := by decide

/-- C7 (amended): because the VGA sink is written before the serial sink
and `VgaConsole::write_str` always returns `Ok`, a serial transport
failure never prevents delivery to the VGA sink; but instead of
continuing, the process panics exactly when the serial transport fails. -/
theorem vga_receives_despite_serial_failure (v : VgaConsole) (t : String) (fails : Bool) :
    (dispatchPrint (some v) true fails t).vga = some (v.write_str t) ∧
    (dispatchPrint (some v) true fails t).vgaReceived = true ∧
    (dispatchPrint (some v) true fails t).panicked = fails := by
  cases fails <;> exact ⟨rfl, rfl, rfl⟩

/-- C8: a code point above 0xFF behaves exactly like the single-byte glyph
`?` (byte 63): same successor state; and away from the last column it
stores 63 at the current cell, leaves the attribute byte alone, and
advances the cursor by exactly one column. -/
theorem high_codepoint_writes_question_mark (s : VgaConsole) (c : Char)
    (hc : 255 < c.toNat) :
    s.putChar c = s.putChar '?' ∧
    s.putChar c = (s.write 63 none).move_char_right ∧
    (s.width ≤ 255 → s.col + 1 < s.width →
      (s.putChar c).glyphAt s.row s.col = 63 ∧
      (s.putChar c).attrAt s.row s.col = s.attrAt s.row s.col ∧
      (s.putChar c).col = s.col + 1 ∧ (s.putChar c).row = s.row) := by
  have h1 : c ≠ '\r' := fun h => absurd hc (by rw [h]; decide)
  have h2 : c ≠ '\n' := fun h => absurd hc (by rw [h]; decide)
  have hhigh := putChar_high s c hc
  have hq : s.putChar '?' = (s.write 63 none).move_char_right := by
    rw [putChar_glyph s '?' (by decide) (by decide), if_pos (by decide)]
    have h63 : ('?' : Char).toNat = 63 := by decide
    rw [h63]
  refine ⟨hhigh.trans hq.symm, hhigh, ?_⟩
  intro hW hlt
  have hrec := putChar_glyph_no_wrap s c h1 h2 hW (by omega) (by omega)
  rw [if_neg (by omega)] at hrec
  rw [hrec]
  refine ⟨?_, ?_, rfl, rfl⟩
  · show (s.write 63 none).mem ((s.row * s.width + s.col) * 2) = 63
    rw [VgaConsole.write_mem_none, if_pos rfl]
  · show (s.write 63 none).mem ((s.row * s.width + s.col) * 2 + 1)
      = s.mem ((s.row * s.width + s.col) * 2 + 1)
    rw [VgaConsole.write_mem_none, if_neg (by omega)]

/-- Witness for C8 at the code point U+03BB on the 80x25 console. -/
theorem high_codepoint_witness :
    255 < 'λ'.toNat ∧ vga80x25.col + 1 < vga80x25.width ∧
    ((vga80x25.putChar 'λ').glyphAt 0 0 = 63 ∧
     (vga80x25.putChar 'λ').col = 1 ∧ (vga80x25.putChar 'λ').row = 0) := by
  have h := high_codepoint_writes_question_mark vga80x25 'λ' (by decide)
  have h2 := h.2.2 (by decide) (by decide)
  exact ⟨by decide, by decide, h2.1, h2.2.2.1, h2.2.2.2⟩

/-- C9: from any state with a valid cursor and `u8`-sized dimensions, both
complete public operations — `write_text` of any string and `clear` —
leave the cursor satisfying `row < height ∧ col < width` again. -/
theorem cursor_in_bounds_preserved (s : VgaConsole) (str : String)
    (hU : s.U8Dims) (hcur : s.CursorInBounds) :
    (s.write_str str).CursorInBounds ∧ (s.clear).CursorInBounds := by
  constructor
  · have hp := write_str_P s str hU hcur
    exact ⟨hp.2.2.1, hp.2.2.2⟩
  · constructor
    · show (s.clear).row < (s.clear).height
      have h0 : (s.clear).row = 0 := rfl
      rw [h0, clear_height]
      have hh := hU.2.2.1
      omega
    · show (s.clear).col < (s.clear).width
      have h0 : (s.clear).col = 0 := rfl
      rw [h0, clear_width]
      have hw := hU.1
      omega

/-- Witness for C9 on a concrete console and string with scrolling. -/
theorem cursor_in_bounds_witness :
    vgaDirty.U8Dims ∧ vgaDirty.CursorInBounds ∧
    ((vgaDirty.write_str "hi\n").CursorInBounds ∧ (vgaDirty.clear).CursorInBounds) :=
  ⟨by decide, by decide,
    cursor_in_bounds_preserved vgaDirty "hi\n" (by decide) (by decide)⟩

/-- C10: a string of carriage returns only, or of newlines that never
reach the bottom row, changes no memory byte and no dimension — only the
cursor fields. -/
theorem cr_and_nl_leave_cells_unchanged :
    (∀ (s : VgaConsole) (str : String), (∀ c ∈ str.data, c = '\r') →
      (∀ o, (s.write_str str).mem o = s.mem o) ∧
      (s.write_str str).width = s.width ∧ (s.write_str str).height = s.height) ∧
    (∀ (s : VgaConsole) (str : String), (∀ c ∈ str.data, c = '\n') →
      s.height ≤ 255 → s.row + str.data.length < s.height →
      (∀ o, (s.write_str str).mem o = s.mem o) ∧
      (s.write_str str).width = s.width ∧ (s.write_str str).height = s.height) := by
  constructor
  · intro s str hall
    have h := cr_run_id str.data s hall
    refine ⟨fun o => ?_, h.2.1, h.2.2⟩
    show (str.data.foldl VgaConsole.putChar s).mem o = s.mem o
    rw [h.1]
  · intro s str hall hH hrow
    have h := nl_run_no_scroll str.data s hall hH hrow
    refine ⟨fun o => ?_, h.2.1, h.2.2⟩
    show (str.data.foldl VgaConsole.putChar s).mem o = s.mem o
    rw [h.1]

/-- Witness for C10 on the 80x25 console. -/
theorem cr_and_nl_frame_witness :
    ((vga80x25.write_str "\r\r").mem 0 = vga80x25.mem 0 ∧
     (vga80x25.write_str "\r\r").width = vga80x25.width) ∧
    (vga80x25.row + "\n\n".data.length < vga80x25.height ∧
     (vga80x25.write_str "\n\n").mem 5 = vga80x25.mem 5) :=
  ⟨⟨(cr_and_nl_leave_cells_unchanged.1 vga80x25 "\r\r" (by decide)).1 0,
    (cr_and_nl_leave_cells_unchanged.1 vga80x25 "\r\r" (by decide)).2.1⟩,
   ⟨by decide,
    (cr_and_nl_leave_cells_unchanged.2 vga80x25 "\n\n" (by decide) (by decide)
      (by decide)).1 5⟩⟩
